import Mathlib

/-!
Verification of the RouterOS API client layer of this repository: the
length-prefixed sentence codec, the TCP stream reassembler, the FIFO
request correlator, the connection pool with bounded retry, the TLS
fingerprint check and the peer-comment private-key convention.

Words on the wire are modelled as lists of bytes (`List Nat`, each entry a
byte value); a sentence is a list of words.  JavaScript 32-bit operators
`>>`, `<<`, `&`, `|` on the non-negative values that occur here are
embedded as the corresponding `Nat` operations `>>>`, `<<<`, `&&&`, `|||`.
-/

namespace Ros

/-- Embedding of `encodeLength` (wire-protocol length prefix, 1 to 5 bytes,
big-endian, from the encoder section of the service module). -/
def encodeLength (len : Nat) : List Nat :=
  if len < 0x80 then [len]
  else if len < 0x4000 then
    [((len >>> 8) &&& 0x3f) ||| 0x80, len &&& 0xff]
  else if len < 0x200000 then
    [((len >>> 16) &&& 0x1f) ||| 0xc0, (len >>> 8) &&& 0xff, len &&& 0xff]
  else if len < 0x10000000 then
    [((len >>> 24) &&& 0x0f) ||| 0xe0, (len >>> 16) &&& 0xff,
     (len >>> 8) &&& 0xff, len &&& 0xff]
  else
    [0xf0, (len >>> 24) &&& 0xff, (len >>> 16) &&& 0xff,
     (len >>> 8) &&& 0xff, len &&& 0xff]

/-- Embedding of `encodeWord`: length prefix followed by the word body
(the body is already the UTF-8 byte sequence of the word). -/
def encodeWord (w : List Nat) : List Nat :=
  encodeLength w.length ++ w

/-- Embedding of `encodeSentence`: the encoded words followed by the single
zero terminator byte. -/
def encodeSentence (ws : List (List Nat)) : List Nat :=
  (ws.map encodeWord).flatten ++ [0]

/-- Embedding of the length-prefix reading step of `decodePackets`: inspect
the first byte, select the 1/2/3/4/5-byte form, and return the decoded
length together with the bytes following the prefix; `none` when fewer
bytes are available than the selected form needs (the `break outer`
cases of the source). -/
def readLen : List Nat → Option (Nat × List Nat)
  | [] => none
  | b0 :: rest =>
    if b0 &&& 0xf0 = 0xf0 then
      match rest with
      | b1 :: b2 :: b3 :: b4 :: t =>
        some (b1 * 0x1000000 + (b2 <<< 16) + (b3 <<< 8) + b4, t)
      | _ => none
    else if b0 &&& 0xe0 = 0xe0 then
      match rest with
      | b1 :: b2 :: b3 :: t =>
        some ((b0 &&& 0x0f) * 0x1000000 + (b1 <<< 16) + (b2 <<< 8) + b3, t)
      | _ => none
    else if b0 &&& 0xc0 = 0xc0 then
      match rest with
      | b1 :: b2 :: t => some (((b0 &&& 0x1f) <<< 16) + (b1 <<< 8) + b2, t)
      | _ => none
    else if b0 &&& 0x80 = 0x80 then
      match rest with
      | b1 :: t => some (((b0 &&& 0x3f) <<< 8) + b1, t)
      | _ => none
    else
      some (b0, rest)

theorem readLen_lt {buf : List Nat} {len : Nat} {rest : List Nat}
    (h : readLen buf = some (len, rest)) : rest.length < buf.length := by
  match buf with
  | [] => simp [readLen] at h
  | b0 :: t =>
    simp only [readLen] at h
    split at h
    · match t with
      | b1 :: b2 :: b3 :: b4 :: u =>
        simp only [Option.some.injEq, Prod.mk.injEq] at h
        simp [← h.2]; omega
      | [] | [_] | [_, _] | [_, _, _] => simp at h
    · split at h
      · match t with
        | b1 :: b2 :: b3 :: u =>
          simp only [Option.some.injEq, Prod.mk.injEq] at h
          simp [← h.2]; omega
        | [] | [_] | [_, _] => simp at h
      · split at h
        · match t with
          | b1 :: b2 :: u =>
            simp only [Option.some.injEq, Prod.mk.injEq] at h
            simp [← h.2]; omega
          | [] | [_] => simp at h
        · split at h
          · match t with
            | b1 :: u =>
              simp only [Option.some.injEq, Prod.mk.injEq] at h
              simp [← h.2]; omega
            | [] => simp at h
          · simp only [Option.some.injEq, Prod.mk.injEq] at h
            simp [← h.2]

/-- Embedding of the main loop of `decodePackets`.  `sentence` is the
partially assembled sentence of the current outer iteration, `sentences`
the sentences already completed.  A zero length terminates the current
sentence; an incomplete prefix or an incomplete word body stops parsing
and returns the bytes from the current position (`buf.subarray(i)`) as
the residual input. -/
def decodePacketsAux (buf : List Nat) (sentence : List (List Nat))
    (sentences : List (List (List Nat))) :
    List (List (List Nat)) × List Nat :=
  match h : readLen buf with
  | none => (sentences, buf)
  | some (len, rest) =>
    if len = 0 then
      decodePacketsAux rest [] (sentences ++ [sentence])
    else if rest.length < len then
      (sentences, buf)
    else
      decodePacketsAux (rest.drop len) (sentence ++ [rest.take len]) sentences
termination_by buf.length
decreasing_by
  · exact readLen_lt h
  · exact Nat.lt_of_le_of_lt (by simp) (readLen_lt h)

/-- Embedding of `decodePackets`: decode as many complete sentences as the
buffer holds and return them with the residual bytes. -/
def decodePackets (buf : List Nat) : List (List (List Nat)) × List Nat :=
  decodePacketsAux buf [] []

/-- Embedding of one firing of the socket `data` handler restricted to its
buffering behaviour: append the chunk to the carried-over bytes, decode,
and keep the residue for the next chunk.  The first component collects
every sentence the handler has seen so far. -/
def processChunk (st : List (List (List Nat)) × List Nat) (chunk : List Nat) :
    List (List (List Nat)) × List Nat :=
  let r := decodePackets (st.2 ++ chunk)
  (st.1 ++ r.1, r.2)

/-- Feeding a whole series of chunks through the `data` handler, starting
from the empty receive buffer. -/
def processChunks (chunks : List (List Nat)) :
    List (List (List Nat)) × List Nat :=
  chunks.foldl processChunk ([], [])

/-- Width of the encoded length prefix as given by the table of the
protocol documentation. -/
def lengthTableWidth (len : Nat) : Nat :=
  if len < 0x80 then 1
  else if len < 0x4000 then 2
  else if len < 0x200000 then 3
  else if len < 0x10000000 then 4
  else 5

/-- Lengths at and around every boundary of the variable-width table. -/
def boundaryLengths : List Nat :=
  [0, 1, 0x7e, 0x7f, 0x80, 0x81, 0x3ffe, 0x3fff, 0x4000, 0x4001,
   0x1ffffe, 0x1fffff, 0x200000, 0x200001, 0xffffffe, 0xfffffff,
   0x10000000, 0x10000001, 0xffffffff]

theorem and255 (x : Nat) : x &&& 255 = x % 256 := by
  have h := Nat.and_pow_two_sub_one_eq_mod x 8
  norm_num at h; exact h

theorem and63 (x : Nat) : x &&& 63 = x % 64 := by
  have h := Nat.and_pow_two_sub_one_eq_mod x 6
  norm_num at h; exact h

theorem and31 (x : Nat) : x &&& 31 = x % 32 := by
  have h := Nat.and_pow_two_sub_one_eq_mod x 5
  norm_num at h; exact h

theorem and15 (x : Nat) : x &&& 15 = x % 16 := by
  have h := Nat.and_pow_two_sub_one_eq_mod x 4
  norm_num at h; exact h

theorem shr8 (x : Nat) : x >>> 8 = x / 256 := by
  rw [Nat.shiftRight_eq_div_pow]

theorem shr16 (x : Nat) : x >>> 16 = x / 65536 := by
  rw [Nat.shiftRight_eq_div_pow]

theorem shr24 (x : Nat) : x >>> 24 = x / 16777216 := by
  rw [Nat.shiftRight_eq_div_pow]

theorem shl8 (x : Nat) : x <<< 8 = x * 256 := by
  rw [Nat.shiftLeft_eq]

theorem shl16 (x : Nat) : x <<< 16 = x * 65536 := by
  rw [Nat.shiftLeft_eq]

theorem byte1Facts : ∀ b < 128, ¬(b &&& 0xf0 = 0xf0) ∧ ¬(b &&& 0xe0 = 0xe0) ∧
    ¬(b &&& 0xc0 = 0xc0) ∧ ¬(b &&& 0x80 = 0x80) := by decide

theorem byte2Facts : ∀ a < 64, ¬((a ||| 128) &&& 0xf0 = 0xf0) ∧
    ¬((a ||| 128) &&& 0xe0 = 0xe0) ∧ ¬((a ||| 128) &&& 0xc0 = 0xc0) ∧
    ((a ||| 128) &&& 0x80 = 0x80) ∧ (a ||| 128) &&& 0x3f = a := by decide

theorem byte3Facts : ∀ a < 32, ¬((a ||| 0xc0) &&& 0xf0 = 0xf0) ∧
    ¬((a ||| 0xc0) &&& 0xe0 = 0xe0) ∧ ((a ||| 0xc0) &&& 0xc0 = 0xc0) ∧
    (a ||| 0xc0) &&& 0x1f = a := by decide

theorem byte4Facts : ∀ a < 16, ¬((a ||| 0xe0) &&& 0xf0 = 0xf0) ∧
    ((a ||| 0xe0) &&& 0xe0 = 0xe0) ∧ (a ||| 0xe0) &&& 0x0f = a := by decide

/-- Reading back an encoded length prefix recovers the length and leaves
exactly the trailing bytes. -/
theorem readLen_encode (n : Nat) (hn : n < 2 ^ 32) (t : List Nat) :
    readLen (encodeLength n ++ t) = some (n, t) := by
  have h32 : n < 4294967296 := by omega
  rcases Nat.lt_or_ge n 0x80 with h1 | h1
  · have hb := byte1Facts n (by omega)
    simp only [encodeLength, if_pos h1, List.cons_append, List.nil_append,
      readLen, if_neg hb.1, if_neg hb.2.1, if_neg hb.2.2.1, if_neg hb.2.2.2]
  · rcases Nat.lt_or_ge n 0x4000 with h2 | h2
    · have ha : (n >>> 8) &&& 0x3f = n / 256 := by
        rw [shr8, and63]; omega
      have hb := byte2Facts (n / 256) (by omega)
      simp only [encodeLength, if_neg (show ¬ n < 0x80 by omega), if_pos h2, ha,
        and255, List.cons_append, List.nil_append]
      simp only [readLen, if_neg hb.1, if_neg hb.2.1, if_neg hb.2.2.1,
        if_pos hb.2.2.2.1, hb.2.2.2.2, shl8, Option.some.injEq, Prod.mk.injEq]
      exact ⟨by omega, trivial⟩
    · rcases Nat.lt_or_ge n 0x200000 with h3 | h3
      · have ha : (n >>> 16) &&& 0x1f = n / 65536 := by
          rw [shr16, and31]; omega
        have hc : (n >>> 8) &&& 0xff = n / 256 % 256 := by rw [shr8, and255]
        have hb := byte3Facts (n / 65536) (by omega)
        simp only [encodeLength, if_neg (show ¬ n < 0x80 by omega),
          if_neg (show ¬ n < 0x4000 by omega), if_pos h3, ha, hc, and255,
          List.cons_append, List.nil_append]
        simp only [readLen, if_neg hb.1, if_neg hb.2.1, if_pos hb.2.2.1,
          hb.2.2.2, shl8, shl16, Option.some.injEq, Prod.mk.injEq]
        exact ⟨by omega, trivial⟩
      · rcases Nat.lt_or_ge n 0x10000000 with h4 | h4
        · have ha : (n >>> 24) &&& 0x0f = n / 16777216 := by
            rw [shr24, and15]; omega
          have hc : (n >>> 16) &&& 0xff = n / 65536 % 256 := by rw [shr16, and255]
          have hd : (n >>> 8) &&& 0xff = n / 256 % 256 := by rw [shr8, and255]
          have hb := byte4Facts (n / 16777216) (by omega)
          simp only [encodeLength, if_neg (show ¬ n < 0x80 by omega),
            if_neg (show ¬ n < 0x4000 by omega), if_neg (show ¬ n < 0x200000 by omega),
            if_pos h4, ha, hc, hd, and255, List.cons_append, List.nil_append]
          simp only [readLen, if_neg hb.1, if_pos hb.2.1, hb.2.2, shl8, shl16,
            Option.some.injEq, Prod.mk.injEq]
          exact ⟨by omega, trivial⟩
        · have ha : (n >>> 24) &&& 0xff = n / 16777216 := by
            rw [shr24, and255]; omega
          have hc : (n >>> 16) &&& 0xff = n / 65536 % 256 := by rw [shr16, and255]
          have hd : (n >>> 8) &&& 0xff = n / 256 % 256 := by rw [shr8, and255]
          simp only [encodeLength, if_neg (show ¬ n < 0x80 by omega),
            if_neg (show ¬ n < 0x4000 by omega), if_neg (show ¬ n < 0x200000 by omega),
            if_neg (show ¬ n < 0x10000000 by omega), ha, hc, hd, and255,
            List.cons_append, List.nil_append]
          simp only [readLen, if_pos (show (0xf0 : Nat) &&& 0xf0 = 0xf0 by decide),
            shl8, shl16, Option.some.injEq, Prod.mk.injEq]
          exact ⟨by omega, trivial⟩

theorem decodeAux_none {buf : List Nat} (h : readLen buf = none)
    (sent : List (List Nat)) (sents : List (List (List Nat))) :
    decodePacketsAux buf sent sents = (sents, buf) := by
  rw [decodePacketsAux.eq_def]
  split
  · rfl
  · rename_i len rest heq
    rw [h] at heq
    exact absurd heq (by simp)

theorem decodeAux_step_zero {buf t : List Nat} (h : readLen buf = some (0, t))
    (sent : List (List Nat)) (sents : List (List (List Nat))) :
    decodePacketsAux buf sent sents = decodePacketsAux t [] (sents ++ [sent]) := by
  rw [decodePacketsAux.eq_def]
  split
  · rename_i heq
    rw [h] at heq
    exact absurd heq (by simp)
  · rename_i len rest heq
    rw [h] at heq
    simp only [Option.some.injEq, Prod.mk.injEq] at heq
    obtain ⟨hl, hr⟩ := heq
    subst hl hr
    simp

theorem decodeAux_step_word {buf t : List Nat} {len : Nat}
    (h : readLen buf = some (len, t)) (hlen : len ≠ 0) (hle : len ≤ t.length)
    (sent : List (List Nat)) (sents : List (List (List Nat))) :
    decodePacketsAux buf sent sents
      = decodePacketsAux (t.drop len) (sent ++ [t.take len]) sents := by
  rw [decodePacketsAux.eq_def]
  split
  · rename_i heq
    rw [h] at heq
    exact absurd heq (by simp)
  · rename_i len2 rest heq
    rw [h] at heq
    simp only [Option.some.injEq, Prod.mk.injEq] at heq
    obtain ⟨hl, hr⟩ := heq
    subst hl hr
    rw [if_neg hlen, if_neg (Nat.not_lt.mpr hle)]

theorem readLen_zero (t : List Nat) : readLen (0 :: t) = some (0, t) := by
  simp [readLen]

/-- Decoding a fully encoded sentence placed in front of arbitrary trailing
bytes consumes exactly that sentence. -/
theorem decodeAux_encodeSentence (S : List (List Nat))
    (hS : ∀ w ∈ S, w ≠ [] ∧ w.length < 2 ^ 32) (t : List Nat)
    (sent : List (List Nat)) (sents : List (List (List Nat))) :
    decodePacketsAux (encodeSentence S ++ t) sent sents
      = decodePacketsAux t [] (sents ++ [sent ++ S]) := by
  induction S generalizing sent t with
  | nil =>
    rw [show encodeSentence [] ++ t = 0 :: t by simp [encodeSentence]]
    rw [decodeAux_step_zero (readLen_zero t)]
    simp
  | cons w ws ih =>
    have hw := hS w (by simp)
    have hrest : ∀ x ∈ ws, x ≠ [] ∧ x.length < 2 ^ 32 := fun x hx => hS x (by simp [hx])
    have hsplit : encodeSentence (w :: ws) ++ t
        = encodeLength w.length ++ (w ++ (encodeSentence ws ++ t)) := by
      simp [encodeSentence, encodeWord, List.append_assoc]
    rw [hsplit, decodeAux_step_word (readLen_encode w.length hw.2 _)
      (by simpa using hw.1) (by simp)]
    rw [List.take_left, List.drop_left]
    rw [ih hrest]
    simp

theorem decodePackets_encode (S : List (List Nat))
    (hS : ∀ w ∈ S, w ≠ [] ∧ w.length < 2 ^ 32) :
    decodePackets (encodeSentence S) = ([S], []) := by
  have h := decodeAux_encodeSentence S hS [] [] []
  simp only [List.append_nil] at h
  rw [decodePackets, h, decodeAux_none (by simp [readLen])]
  simp


/-!
The request correlator.  Inbound sentences at this layer are the decoded
UTF-8 words; a word is modelled as its character list, a sentence as a
list of words.  A pending request is identified by the id handed to
`write`; settling a promise is modelled as emitting an `Outcome`.
-/

/-- Settlement of one pending request: the resolution with the parsed rows
or the rejection with an error message. -/
inductive Outcome where
  | resolved (id : Nat) (rows : List (List (String × String)))
  | rejected (id : Nat) (msg : String)
deriving DecidableEq

/-- State of one logged-in connection: the FIFO queue of pending requests,
each with its accumulator of received sentences, and the `destroyed`
flag. -/
structure Conn where
  queue : List (Nat × List (List (List Char)))
  destroyed : Bool
deriving DecidableEq

/-- Fold a step function over inputs while concatenating the outcomes each
step emits, in order. -/
def accumRun {α β : Type} (g : α → β → α × List Outcome) (a : α) (xs : List β) :
    α × List Outcome :=
  xs.foldl (fun st x => ((g st.1 x).1, st.2 ++ (g st.1 x).2)) (a, [])

theorem accumRun_shift {α β : Type} (g : α → β → α × List Outcome) (a : α)
    (outs : List Outcome) (xs : List β) :
    xs.foldl (fun st x => ((g st.1 x).1, st.2 ++ (g st.1 x).2)) (a, outs)
      = ((accumRun g a xs).1, outs ++ (accumRun g a xs).2) := by
  induction xs generalizing a outs with
  | nil => simp [accumRun]
  | cons x xs ih =>
    simp only [accumRun, List.foldl_cons, List.nil_append]
    rw [ih ((g a x).1) (outs ++ (g a x).2), ih ((g a x).1) ((g a x).2)]
    simp [List.append_assoc]

theorem accumRun_nil {α β : Type} (g : α → β → α × List Outcome) (a : α) :
    accumRun g a [] = (a, []) := rfl

theorem accumRun_cons {α β : Type} (g : α → β → α × List Outcome) (a : α)
    (x : β) (xs : List β) :
    accumRun g a (x :: xs)
      = ((accumRun g (g a x).1 xs).1, (g a x).2 ++ (accumRun g (g a x).1 xs).2) := by
  simp only [accumRun, List.foldl_cons]
  exact accumRun_shift g ((g a x).1) ((g a x).2) xs

/-- Embedding of the attribute-word split in the row parser: the first `=`
found from position 1 (`w.indexOf("=", 1)`) divides the word into the
key after the one-byte marker (`w.slice(1, eq)`) and the value after
that `=` (`w.slice(eq + 1)`); no such `=` means the word is skipped. -/
def parseAttr : List Char → Option (String × String)
  | [] => none
  | _ :: t =>
    match t.findIdx? (· == '=') with
    | none => none
    | some k => some (String.mk (t.take k), String.mk (t.drop (k + 1)))

/-- Key assignment on a JavaScript object: an existing key keeps its place
and gets the new value, a new key is appended. -/
def setKV (obj : List (String × String)) (k v : String) : List (String × String) :=
  match obj with
  | [] => [(k, v)]
  | (k0, v0) :: rest => if k0 = k then (k0, v) :: rest else (k0, v0) :: setKV rest k v

/-- Embedding of the per-sentence row construction: every word after the
reply-type tag is split by `parseAttr` and assigned into the object. -/
def parseRow (s : List (List Char)) : List (String × String) :=
  (s.drop 1).foldl
    (fun obj w =>
      match parseAttr w with
      | some (k, v) => setKV obj k v
      | none => obj)
    []

/-- Embedding of the resolution path of the `data` handler: keep the
accumulated sentences whose tag word is `!re` and turn each into a row
object. -/
def parseRows (acc : List (List (List Char))) : List (List (String × String)) :=
  (acc.filter (fun s => s.head? == some ("!re".toList))).map parseRow

/-- Embedding of the failure-message extraction of the rejection path:
first accumulated word starting with `=message=`, with that marker
stripped, defaulting to a generic message. -/
def extractMsg (acc : List (List (List Char))) : String :=
  match acc.flatten.find? (fun w => w.take 9 == ("=message=".toList)) with
  | some w => String.mk (w.drop 9)
  | none => "RouterOS error"

/-- The four reply-type tags that terminate the head-of-queue request. -/
def terminalTags : List (List Char) :=
  ["!done", "!empty", "!trap", "!fatal"].map String.toList

/-- Embedding of the post-login part of the `data` handler for one decoded
sentence: empty sentences are skipped, a sentence with no outstanding
request is ignored, otherwise the sentence is pushed onto the head
request accumulator and, when its tag is terminal, the head request is
removed from the queue and rejected (`!trap`/`!fatal`) or resolved. -/
def handleSentence (c : Conn) (s : List (List Char)) : Conn × List Outcome :=
  match s with
  | [] => (c, [])
  | type :: _ =>
    match c.queue with
    | [] => (c, [])
    | (id, acc0) :: rest =>
      let acc := acc0 ++ [s]
      if type ∈ terminalTags then
        if type = "!trap".toList ∨ type = "!fatal".toList then
          ({ c with queue := rest }, [Outcome.rejected id (extractMsg acc)])
        else
          ({ c with queue := rest }, [Outcome.resolved id (parseRows acc)])
      else
        ({ c with queue := (id, acc) :: rest }, [])

/-- Externally observable events on one logged-in connection: a `write`
call, the arrival of a batch of decoded sentences, and `destroyAll`
(fired by the error, timeout and close handlers and by `close()`). -/
inductive Ev where
  | write (id : Nat)
  | data (batch : List (List (List Char)))
  | destroy (msg : String)

/-- Embedding of one event: `write` rejects immediately on a destroyed
connection and enqueues otherwise; a data batch runs `handleSentence`
over each sentence in order; `destroyAll` is idempotent and otherwise
rejects every queued request and empties the queue. -/
def connStep (c : Conn) (e : Ev) : Conn × List Outcome :=
  match e with
  | Ev.write id =>
    if c.destroyed then (c, [Outcome.rejected id "Connection already closed"])
    else ({ c with queue := c.queue ++ [(id, [])] }, [])
  | Ev.data batch => accumRun handleSentence c batch
  | Ev.destroy msg =>
    if c.destroyed then (c, [])
    else ({ queue := [], destroyed := true }, c.queue.map (fun p => Outcome.rejected p.1 msg))

/-- A whole event trace on one connection. -/
def connRun (c : Conn) (evs : List Ev) : Conn × List Outcome :=
  accumRun connStep c evs

/-- A fresh logged-in connection: empty queue, not destroyed. -/
def connInit : Conn := ⟨[], false⟩

/-- The request ids of a list of outcomes, in settlement order. -/
def outIds (outs : List Outcome) : List Nat :=
  outs.map fun o =>
    match o with
    | Outcome.resolved id _ => id
    | Outcome.rejected id _ => id

/-- The request ids of the `write` events of a trace, in submission order. -/
def writeIds (evs : List Ev) : List Nat :=
  evs.filterMap fun e =>
    match e with
    | Ev.write id => some id
    | _ => none

/-- The request ids currently queued, oldest first. -/
def queueIds (c : Conn) : List Nat := c.queue.map Prod.fst

theorem outIds_nil : outIds [] = [] := rfl

theorem outIds_append (a b : List Outcome) : outIds (a ++ b) = outIds a ++ outIds b := by
  simp [outIds]

theorem handleSentence_ids (c : Conn) (s : List (List Char)) :
    outIds (handleSentence c s).2 ++ queueIds (handleSentence c s).1 = queueIds c
      ∧ (handleSentence c s).1.destroyed = c.destroyed := by
  match s with
  | [] => simp [handleSentence, outIds_nil]
  | type :: ws =>
    match hq : c.queue with
    | [] => simp [handleSentence, hq, queueIds, outIds_nil]
    | (id, acc0) :: rest =>
      simp only [handleSentence, hq]
      split
      · split
        · simp [outIds, queueIds, hq]
        · simp [outIds, queueIds, hq]
      · simp [outIds, queueIds, hq]

theorem dataRun_ids (batch : List (List (List Char))) (c : Conn) :
    outIds (accumRun handleSentence c batch).2
        ++ queueIds (accumRun handleSentence c batch).1 = queueIds c
      ∧ (accumRun handleSentence c batch).1.destroyed = c.destroyed := by
  induction batch generalizing c with
  | nil => simp [accumRun_nil, outIds_nil]
  | cons s batch ih =>
    rw [accumRun_cons]
    have h1 := handleSentence_ids c s
    have h2 := ih (handleSentence c s).1
    constructor
    · simp only [outIds_append, List.append_assoc]
      rw [h2.1, h1.1]
    · simp [h2.2, h1.2]

/-- Invariant tying a connection state to its history: the settled ids
followed by the queued ids form a subsequence of the submitted ids, and
a destroyed connection has an empty queue. -/
def ConnInv (written settled : List Nat) (c : Conn) : Prop :=
  List.Sublist (settled ++ queueIds c) written ∧ (c.destroyed = true → c.queue = [])

theorem connStep_inv {w s : List Nat} {c : Conn} (h : ConnInv w s c) (e : Ev) :
    ConnInv (w ++ writeIds [e]) (s ++ outIds (connStep c e).2) (connStep c e).1 := by
  obtain ⟨hsub, hdes⟩ := h
  match e with
  | Ev.write id =>
    by_cases hd : c.destroyed
    · have hq : c.queue = [] := hdes hd
      constructor
      · simp only [connStep, if_pos hd, writeIds, List.filterMap_cons]
        simp only [queueIds, hq, List.map_nil, List.append_nil] at hsub ⊢
        simpa [outIds] using hsub.append (List.Sublist.refl [id])
      · intro _
        simp only [connStep, if_pos hd]
        exact hq
    · constructor
      · simp only [connStep, if_neg hd, writeIds, List.filterMap_cons, outIds,
          List.map_nil, List.append_nil, queueIds, List.map_append, List.map_cons]
        simp only [queueIds] at hsub
        have := hsub.append (List.Sublist.refl [id])
        simpa using this
      · intro hcontra
        simp only [connStep, if_neg hd] at hcontra ⊢
        exact absurd hcontra (by simpa using hd)
  | Ev.data batch =>
    have hids := dataRun_ids batch c
    constructor
    · simp only [connStep, writeIds, List.filterMap_cons]
      simp only [List.append_assoc, hids.1]
      simpa using hsub
    · intro hd
      simp only [connStep] at hd ⊢
      have hq : c.queue = [] := hdes (by rw [← hids.2]; exact hd)
      have h1 := hids.1
      rw [show queueIds c = [] by simp [queueIds, hq]] at h1
      have h2 := (List.append_eq_nil.mp h1).2
      simpa [queueIds, List.map_eq_nil_iff] using h2
  | Ev.destroy msg =>
    by_cases hd : c.destroyed
    · constructor
      · simpa [connStep, if_pos hd, writeIds] using hsub
      · intro _
        simp only [connStep, if_pos hd]
        exact hdes hd
    · constructor
      · simp only [connStep, if_neg hd, writeIds, List.filterMap_cons, queueIds,
          List.map_nil, List.append_nil]
        have : outIds (c.queue.map (fun p => Outcome.rejected p.1 msg)) = queueIds c := by
          simp [outIds, queueIds]
        rw [this]
        simpa [queueIds] using hsub
      · intro _
        simp [connStep, if_neg hd]

theorem connRun_inv {w s : List Nat} {c : Conn} (h : ConnInv w s c) (evs : List Ev) :
    ConnInv (w ++ writeIds evs) (s ++ outIds (connRun c evs).2) (connRun c evs).1 := by
  induction evs generalizing w s c with
  | nil => simpa [connRun, accumRun_nil, writeIds, outIds]
  | cons e evs ih =>
    have h1 := connStep_inv h e
    have h2 := ih h1
    simp only [connRun, accumRun_cons] at *
    have hw : w ++ writeIds [e] ++ writeIds evs = w ++ writeIds (e :: evs) := by
      cases e <;> simp [writeIds]
    have hs2 : s ++ outIds (connStep c e).2 ++ outIds (accumRun connStep (connStep c e).1 evs).2
        = s ++ outIds ((connStep c e).2 ++ (accumRun connStep (connStep c e).1 evs).2) := by
      simp [outIds_append]
    rw [hw, hs2] at h2
    exact h2

theorem connRun_inv_init (evs : List Ev) :
    ConnInv (writeIds evs) (outIds (connRun connInit evs).2) (connRun connInit evs).1 := by
  have h0 : ConnInv [] [] connInit := ⟨by simp [queueIds, connInit], by simp [connInit]⟩
  have h := connRun_inv h0 evs
  simpa using h


/-!
The connection pool.  `MikrotikService.connect` first returns any pooled
connection, otherwise awaits one `rosConnect` attempt; on failure it
deletes the pool entry and retries while `attempt < maxRetries`, finally
surfacing the last error wrapped with router context.  The outcome of the
k-th `rosConnect` call is supplied by an oracle.
-/

/-- Embedding of the error wrapping done when retries are exhausted
(router context prepended to the last error message). -/
def wrapConnectError (host msg : String) : String :=
  "Gagal konek ke router " ++ host ++ ": " ++ msg

/-- Embedding of `MikrotikService.connect(attempt)` for one router id:
`pool` is the pool entry for this id, `outcomes n` the result of the
`rosConnect` call made on attempt number `n`.  Returns the result
surfaced to the caller together with the final pool entry. -/
def connectFrom (maxRetries : Nat) (host : String)
    (outcomes : Nat → Except String Nat) (attempt : Nat) (pool : Option Nat) :
    Except String Nat × Option Nat :=
  match pool with
  | some api => (Except.ok api, some api)
  | none =>
    match outcomes attempt with
    | Except.ok api => (Except.ok api, some api)
    | Except.error e =>
      if attempt < maxRetries then
        connectFrom maxRetries host outcomes (attempt + 1) none
      else
        (Except.error (wrapConnectError host e), none)
termination_by maxRetries + 1 - attempt

theorem connectFrom_pool (maxRetries : Nat) (host : String)
    (outcomes : Nat → Except String Nat) (attempt : Nat) (api : Nat) :
    connectFrom maxRetries host outcomes attempt (some api) = (Except.ok api, some api) := by
  rw [connectFrom.eq_def]

theorem connectFrom_ok {outcomes : Nat → Except String Nat} {attempt api : Nat}
    (h : outcomes attempt = Except.ok api) (maxRetries : Nat) (host : String) :
    connectFrom maxRetries host outcomes attempt none = (Except.ok api, some api) := by
  rw [connectFrom.eq_def]
  simp [h]

theorem connectFrom_retry {outcomes : Nat → Except String Nat} {attempt : Nat} {e : String}
    (h : outcomes attempt = Except.error e) {maxRetries : Nat} (hlt : attempt < maxRetries)
    (host : String) :
    connectFrom maxRetries host outcomes attempt none
      = connectFrom maxRetries host outcomes (attempt + 1) none := by
  rw [connectFrom.eq_def]
  simp [h, hlt]

theorem connectFrom_exhaust {outcomes : Nat → Except String Nat} {attempt : Nat} {e : String}
    (h : outcomes attempt = Except.error e) {maxRetries : Nat} (hge : ¬ attempt < maxRetries)
    (host : String) :
    connectFrom maxRetries host outcomes attempt none
      = (Except.error (wrapConnectError host e), none) := by
  rw [connectFrom.eq_def]
  simp [h, hge]

/-- An oracle under which the first three `rosConnect` attempts fail and
any later attempt would succeed. -/
def threeFailOutcomes : Nat → Except String Nat := fun i =>
  if i = 1 then Except.error "boom1"
  else if i = 2 then Except.error "boom2"
  else if i = 3 then Except.error "boom3"
  else Except.ok 7

/-!
Interleaving model for concurrent `connect` callers on one router id.
`connect` is an `async` function whose only suspension points are the
`await rosConnect(...)` (and the retry sleep followed by the re-entrant
`connect(attempt + 1)`, which re-checks the pool).  Each caller is
therefore a small state machine: `ready a` is about to run the body of
`connect(a)` (pool check, else start an attempt), `inflight a cid` is
awaiting `rosConnect` call number `cid`.  `started` counts how many
transport/login sequences (`rosConnect` calls) have been started; it also
hands out the connection identity of each attempt.  A schedule picks
which caller runs at each step; `ok cid` tells whether attempt `cid`
succeeds. -/
inductive CallerPC where
  | ready (attempt : Nat)
  | inflight (attempt : Nat) (conn : Nat)
  | done (conn : Nat)
  | failed
deriving DecidableEq

/-- Shared state: the pool entry for this router id, the number of
transport/login sequences started, and each caller's position. -/
structure PoolSt where
  pool : Option Nat
  started : Nat
  pcs : List CallerPC
deriving DecidableEq

/-- One scheduler step running caller `i`, following the body of
`connect`: a `ready` caller returns the pooled connection if one exists
and otherwise starts a fresh `rosConnect`; a resolved attempt stores its
connection in the pool (overwriting any existing entry), while a failed
attempt deletes the pool entry and retries while `attempt < maxRetries`. -/
def poolStep (maxRetries : Nat) (ok : Nat → Bool) (st : PoolSt) (i : Nat) : PoolSt :=
  match st.pcs[i]? with
  | none => st
  | some pc =>
    match pc with
    | CallerPC.ready a =>
      match st.pool with
      | some c => { st with pcs := st.pcs.set i (CallerPC.done c) }
      | none =>
        { st with pcs := st.pcs.set i (CallerPC.inflight a st.started),
                  started := st.started + 1 }
    | CallerPC.inflight a cid =>
      if ok cid then
        { st with pool := some cid, pcs := st.pcs.set i (CallerPC.done cid) }
      else if a < maxRetries then
        { st with pool := none, pcs := st.pcs.set i (CallerPC.ready (a + 1)) }
      else
        { st with pool := none, pcs := st.pcs.set i CallerPC.failed }
    | _ => st

/-- Run a whole schedule of caller indices. -/
def poolRun (maxRetries : Nat) (ok : Nat → Bool) (st : PoolSt) (sched : List Nat) : PoolSt :=
  sched.foldl (poolStep maxRetries ok) st

/-- Two callers both about to call `connect(1)` on the same router id,
empty pool. -/
def twoCallers : PoolSt := ⟨none, 0, [CallerPC.ready 1, CallerPC.ready 1]⟩

/-!
The TLS fingerprint check.  The SHA-256 digest of the peer certificate is
not recomputed here: `certDigestHex` stands for the lowercase hex string
`crypto.createHash("sha256").update(cert.raw).digest("hex")` of the
presented certificate.
-/

/-- Characters removed from the configured fingerprint, the `[:\s]`
character class of the source. -/
def isFpSeparator (c : Char) : Bool :=
  c == ':' || c == ' ' || c == '\t' || c == '\n' || c == '\r' ||
    c == '\x0b' || c == '\x0c'

/-- Embedding of the normalisation applied to the configured fingerprint:
separators stripped, then lowercased. -/
def normalizeFp (s : String) : String :=
  String.mk ((s.toList.filter (fun c => !isFpSeparator c)).map Char.toLower)

/-- Embedding of the `checkServerIdentity` callback installed when a
fingerprint is configured: compare the digest of the presented
certificate against the normalised configured value and return the
dedicated mismatch error on inequality, no error on equality. -/
def checkServerIdentity (certDigestHex caFingerprint : String) : Option String :=
  let want := normalizeFp caFingerprint
  if certDigestHex ≠ want then
    some ("TLS fingerprint mismatch: got " ++ certDigestHex ++ ", want " ++ want)
  else
    none

/-- Result of a TLS `rosConnect` up to the login step: whether the login
sentence was written to the socket, and the handshake failure if any. -/
structure TlsConnectOutcome where
  loginSent : Bool
  failure : Option String
deriving DecidableEq

/-- Embedding of the TLS connect path: `sendLogin` is called only from the
`secureConnect` handler, and Node fails the handshake (no
`secureConnect`, an `error` instead) whenever `checkServerIdentity`
returns an error, so a fingerprint mismatch prevents the login sentence
from ever being sent; the credentials are never consulted before that
point. -/
def rosConnectTls (certDigestHex : String) (caFingerprint : Option String)
    (user password : String) : TlsConnectOutcome :=
  match caFingerprint with
  | some fp =>
    match checkServerIdentity certDigestHex fp with
    | some e => { loginSent := false, failure := some e }
    | none => { loginSent := true, failure := none }
  | none => { loginSent := true, failure := none }

/-!
The peer-comment private-key convention.  `addPeer` serialises
`{privkey, created_at}` with `JSON.stringify`; `_parsePeer` recovers it
with `JSON.parse(peer.comment || "\x7b\x7d")` and `parsed.privkey ?? null`.
`JSON.parse`/`JSON.stringify` are platform built-ins; they are modelled
here on the fragment this system produces — one-level objects with
string keys and string values containing no characters that need
escaping (the stored values are base64 key material and ISO-8601
timestamps) — with anything outside that fragment failing to parse. -/

/-- A character that `JSON.stringify` emits into a string literal without
escaping: not a quote, not a backslash, not a control character. -/
def plainChar (c : Char) : Bool :=
  c != '"' && c != '\\' && (0x20 ≤ c.toNat)

/-- Embedding of the comment written by `addPeer`:
`JSON.stringify({privkey: privateKey, created_at: <timestamp>})`. -/
def jsonComment (pk ts : String) : String :=
  "\x7b\"privkey\":\"" ++ pk ++ "\",\"created_at\":\"" ++ ts ++ "\"\x7d"

/-- Embedding of the full sentence `addPeer` writes for a peer. -/
def addPeerSentence (wgInterface name publicKey v4 v6 privateKey createdAt : String) :
    List String :=
  ["/interface/wireguard/peers/add",
   "=interface=" ++ wgInterface,
   "=name=" ++ name,
   "=public-key=" ++ publicKey,
   "=allowed-address=" ++ v4 ++ "/32," ++ v6 ++ "/128",
   "=comment=" ++ jsonComment privateKey createdAt]

/-- String-literal body up to the closing quote; fails on escapes (outside
the modelled fragment). -/
def parseStrBody : List Char → Option (List Char × List Char)
  | [] => none
  | c :: rest =>
    if c = '"' then some ([], rest)
    else if c = '\\' then none
    else
      match parseStrBody rest with
      | some (s, r) => some (c :: s, r)
      | none => none

/-- One `"key":"value"` pair. -/
def parsePair (l : List Char) : Option ((String × String) × List Char) :=
  match l with
  | '"' :: r =>
    match parseStrBody r with
    | some (k, r1) =>
      match r1 with
      | ':' :: '"' :: r2 =>
        match parseStrBody r2 with
        | some (v, r3) => some ((String.mk k, String.mk v), r3)
        | none => none
      | _ => none
    | none => none
  | _ => none

/-- Comma-separated pairs up to the closing brace; the fuel argument
bounds the recursion by the input length. -/
def parsePairsAux : Nat → List Char → Option (List (String × String) × List Char)
  | 0, _ => none
  | fuel + 1, l =>
    match parsePair l with
    | none => none
    | some (kv, r) =>
      match r with
      | '\x7d' :: r2 => some ([kv], r2)
      | ',' :: r2 =>
        match parsePairsAux fuel r2 with
        | some (kvs, r3) => some (kv :: kvs, r3)
        | none => none
      | _ => none

/-- Model of `JSON.parse` on the fragment described above: a whole-string
object of string-valued fields. -/
def parseJsonObj (s : String) : Option (List (String × String)) :=
  match s.toList with
  | '\x7b' :: r =>
    match r with
    | '\x7d' :: rest => if rest = [] then some [] else none
    | _ =>
      match parsePairsAux r.length r with
      | some (kvs, rest) => if rest = [] then some kvs else none
      | none => none
  | _ => none

/-- Assemble parsed fields with JavaScript object semantics (a repeated
key keeps its first position and the last value). -/
def jsObjOfPairs (kvs : List (String × String)) : List (String × String) :=
  kvs.foldl (fun o kv => setKV o kv.1 kv.2) []

/-- Embedding of the private-key recovery in `_parsePeer`: an absent or
empty comment falls back to the empty object (`peer.comment || "\x7b\x7d"`),
a comment that fails to parse yields null (`catch`), and otherwise the
`privkey` field is looked up (`parsed.privkey ?? null`). -/
def privkeyOfComment (comment : String) : Option String :=
  let text := if comment = "" then "\x7b\x7d" else comment
  match parseJsonObj text with
  | none => none
  | some kvs => (jsObjOfPairs kvs).lookup "privkey"

theorem parseStrBody_plain (s : List Char) (hs : ∀ c ∈ s, plainChar c) (rest : List Char) :
    parseStrBody (s ++ '"' :: rest) = some (s, rest) := by
  induction s with
  | nil => simp [parseStrBody]
  | cons c cs ih =>
    have hc := hs c (by simp)
    have h1 : ¬ c = '"' := by
      intro h; rw [h] at hc; simp [plainChar] at hc
    have h2 : ¬ c = '\\' := by
      intro h; rw [h] at hc; simp [plainChar] at hc
    simp only [List.cons_append, parseStrBody, if_neg h1, if_neg h2, List.append_eq]
    rw [ih (fun x hx => hs x (by simp [hx]))]

theorem parsePair_plain (k v rest : List Char)
    (hk : ∀ c ∈ k, plainChar c) (hv : ∀ c ∈ v, plainChar c) :
    parsePair ('"' :: (k ++ '"' :: ':' :: '"' :: (v ++ '"' :: rest)))
      = some ((String.mk k, String.mk v), rest) := by
  simp only [parsePair]
  rw [parseStrBody_plain k hk]
  simp [parseStrBody_plain v hv]

theorem parsePairsAux_twoFields (f : Nat) (k1 v1 k2 v2 : List Char)
    (hk1 : ∀ c ∈ k1, plainChar c) (hv1 : ∀ c ∈ v1, plainChar c)
    (hk2 : ∀ c ∈ k2, plainChar c) (hv2 : ∀ c ∈ v2, plainChar c) :
    parsePairsAux (f + 2)
      ('"' :: (k1 ++ '"' :: ':' :: '"' :: (v1 ++ '"' :: ',' ::
        ('"' :: (k2 ++ '"' :: ':' :: '"' :: (v2 ++ '"' :: ['\x7d']))))))
      = some ([(String.mk k1, String.mk v1), (String.mk k2, String.mk v2)], []) := by
  simp only [parsePairsAux]
  rw [parsePair_plain k1 v1 _ hk1 hv1]
  simp only [parsePairsAux]
  rw [parsePair_plain k2 v2 _ hk2 hv2]
  simp

theorem jsonComment_toList (pk ts : String) :
    (jsonComment pk ts).toList
      = '\x7b' :: ('"' :: ("privkey".toList ++ '"' :: ':' :: '"' ::
          (pk.toList ++ '"' :: ',' ::
            ('"' :: ("created_at".toList ++ '"' :: ':' :: '"' ::
              (ts.toList ++ '"' :: ['\x7d'])))))) := by
  simp [jsonComment, String.toList, String.data_append]

theorem parseJsonObj_comment (pk ts : String)
    (hpk : ∀ c ∈ pk.toList, plainChar c) (hts : ∀ c ∈ ts.toList, plainChar c) :
    parseJsonObj (jsonComment pk ts) = some [("privkey", pk), ("created_at", ts)] := by
  have hk1 : ∀ c ∈ "privkey".toList, plainChar c := by decide
  have hk2 : ∀ c ∈ "created_at".toList, plainChar c := by decide
  simp only [parseJsonObj, jsonComment_toList]
  set body := '"' :: ("privkey".toList ++ '"' :: ':' :: '"' ::
    (pk.toList ++ '"' :: ',' ::
      ('"' :: ("created_at".toList ++ '"' :: ':' :: '"' ::
        (ts.toList ++ '"' :: ['\x7d']))))) with hbody
  have hlen : body.length = (body.length - 2) + 2 := by
    rw [hbody]; simp
  rw [hlen, parsePairsAux_twoFields _ _ _ _ _ hk1 hpk hk2 hts]
  rw [hbody]
  simp [String.mk]

theorem privkey_roundtrip (pk ts : String)
    (hpk : ∀ c ∈ pk.toList, plainChar c) (hts : ∀ c ∈ ts.toList, plainChar c) :
    privkeyOfComment (jsonComment pk ts) = some pk := by
  have hne : jsonComment pk ts ≠ "" := by
    intro h
    have h2 := congrArg String.toList h
    rw [jsonComment_toList] at h2
    simp [String.toList] at h2
  simp only [privkeyOfComment, if_neg hne, parseJsonObj_comment pk ts hpk hts]
  simp [jsObjOfPairs, setKV, show ("privkey" : String) ≠ "created_at" from by decide,
    List.lookup]


/-- C1: the spec claims chunked and whole-buffer decoding agree, with the
bytes of words already parsed inside a partially received sentence retained
as residual input.  The code retains only the bytes after the last fully
consumed word, so splitting the five-byte encoding of the sentence
["a", "b"] after its third byte silently drops the word "a". -/
theorem C1_reassembly_loses_words :
    encodeSentence [[97], [98]] = [1, 97, 1, 98, 0] ∧
    processChunks [[1, 97, 1, 98, 0]] = ([[[97], [98]]], []) ∧
    processChunks [[1, 97, 1], [98, 0]] = ([[[98]]], []) := by
  refine ⟨by decide, ?_, ?_⟩ <;>
    simp [processChunks, processChunk, decodePackets, decodePacketsAux, readLen]

/-- C3: decoding inverts encoding for every sentence of nonempty words (a
zero length always means end of sentence, never a zero-length word), and at
every boundary of the variable-width table the length prefix round-trips
with the tabulated byte count. -/
theorem C3_codec_roundtrip :
    (∀ S : List (List Nat), (∀ w ∈ S, w ≠ [] ∧ w.length < 2 ^ 32) →
        decodePackets (encodeSentence S) = ([S], [])) ∧
    (∀ L ∈ boundaryLengths,
        readLen (encodeLength L) = some (L, []) ∧
        (encodeLength L).length = lengthTableWidth L) ∧
    decodePackets [0] = ([[]], []) := by
  refine ⟨fun S hS => decodePackets_encode S hS, by decide, ?_⟩
  simp [decodePackets, decodePacketsAux, readLen]

theorem C3_codec_roundtrip_witness :
    (∀ w ∈ [[47, 112, 114], [63, 97]], w ≠ [] ∧ w.length < 2 ^ 32) ∧
    decodePackets (encodeSentence [[47, 112, 114], [63, 97]])
      = ([[[47, 112, 114], [63, 97]]], []) :=
  ⟨by decide, C3_codec_roundtrip.1 [[47, 112, 114], [63, 97]] (by decide)⟩

/-- C2: on one connection, settled request ids always form a subsequence of
the submitted ids (responses are delivered in submission order however the
inbound sentences are batched), and a terminal sentence always settles
exactly the oldest outstanding request. -/
theorem C2_fifo_order :
    (∀ evs : List Ev,
        List.Sublist (outIds (connRun connInit evs).2) (writeIds evs)) ∧
    (∀ (c : Conn) (id : Nat) (acc : List (List (List Char)))
        (rest : List (Nat × List (List (List Char)))) (w : List Char)
        (ws : List (List Char)),
        c.queue = (id, acc) :: rest → w ∈ terminalTags →
        outIds (handleSentence c (w :: ws)).2 = [id]
          ∧ (handleSentence c (w :: ws)).1.queue = rest) := by
  constructor
  · intro evs
    have h := connRun_inv_init evs
    exact List.Sublist.trans (List.sublist_append_left _ _) h.1
  · intro c id acc rest w ws hq hw
    simp only [handleSentence, hq, if_pos hw]
    split
    · simp [outIds]
    · simp [outIds]

theorem C2_fifo_order_witness :
    List.Sublist
      (outIds (connRun connInit
        [Ev.write 1, Ev.write 2, Ev.data [["!done".toList]],
         Ev.data [["!done".toList]]]).2)
      (writeIds [Ev.write 1, Ev.write 2, Ev.data [["!done".toList]],
         Ev.data [["!done".toList]]])
    ∧ outIds (handleSentence ⟨[(5, []), (6, [])], false⟩ ["!done".toList]).2 = [5]
    ∧ (handleSentence ⟨[(5, []), (6, [])], false⟩ ["!done".toList]).1.queue = [(6, [])] :=
  ⟨C2_fifo_order.1 _,
   (C2_fifo_order.2 ⟨[(5, []), (6, [])], false⟩ 5 [] [(6, [])] "!done".toList [] rfl
     (by decide)).1,
   (C2_fifo_order.2 ⟨[(5, []), (6, [])], false⟩ 5 [] [(6, [])] "!done".toList [] rfl
     (by decide)).2⟩

/-- C6: a `!trap` reply settles exactly the head-of-queue request with the
message taken from the accumulated `=message=` word (generic default when
absent), leaves the rest of the queue and the `destroyed` flag untouched,
and the connection remains usable for the next queued request; concretely,
the reply ["!trap", "=message=invalid value"] rejects request 1 with
message "invalid value" and request 2 still resolves. -/
theorem C6_trap_rejects_only_head :
    (∀ (c : Conn) (id : Nat) (acc : List (List (List Char)))
        (rest : List (Nat × List (List (List Char)))) (ws : List (List Char)),
        c.destroyed = false → c.queue = (id, acc) :: rest →
        handleSentence c ("!trap".toList :: ws)
          = (⟨rest, false⟩,
             [Outcome.rejected id (extractMsg (acc ++ ["!trap".toList :: ws]))])) ∧
    extractMsg [["!trap".toList, "=message=invalid value".toList]] = "invalid value" ∧
    extractMsg [["!trap".toList]] = "RouterOS error" ∧
    connRun connInit
        [Ev.write 1, Ev.write 2,
         Ev.data [["!trap".toList, "=message=invalid value".toList]],
         Ev.data [["!re".toList, "=x=1".toList], ["!done".toList]]]
      = (⟨[], false⟩,
         [Outcome.rejected 1 "invalid value", Outcome.resolved 2 [[("x", "1")]]]) := by
  refine ⟨?_, by decide, by decide, by decide⟩
  intro c id acc rest ws hd hq
  obtain ⟨q, d⟩ := c
  simp only at hd hq
  subst hd hq
  have hmem : "!trap".toList ∈ terminalTags := by decide
  simp only [handleSentence, if_pos hmem]
  simp

theorem C6_trap_rejects_only_head_witness :
    handleSentence ⟨[(1, []), (2, [])], false⟩
        ["!trap".toList, "=message=invalid value".toList]
      = (⟨[(2, [])], false⟩, [Outcome.rejected 1 "invalid value"]) := by
  have h := C6_trap_rejects_only_head.1 ⟨[(1, []), (2, [])], false⟩ 1 [] [(2, [])]
    ["=message=invalid value".toList] rfl rfl
  rw [h]
  decide

/-- C7: when a request completes with `!done` (or `!empty`), the head
request resolves with the accumulated `!re` sentences parsed into row
objects — each attribute word loses its one-byte marker and splits at the
first `=` after it; concretely the sentence
["!re", "=name=Alpha", "=allowed-address=10.0.0.2/32,fd00::2/128"] parses
to the row {name: Alpha, allowed-address: 10.0.0.2/32,fd00::2/128}. -/
theorem C7_row_parsing :
    (∀ (c : Conn) (id : Nat) (acc : List (List (List Char)))
        (rest : List (Nat × List (List (List Char)))) (ws : List (List Char)),
        c.destroyed = false → c.queue = (id, acc) :: rest →
        handleSentence c ("!done".toList :: ws)
          = (⟨rest, false⟩,
             [Outcome.resolved id (parseRows (acc ++ ["!done".toList :: ws]))])) ∧
    parseRows [["!re".toList, "=name=Alpha".toList,
                "=allowed-address=10.0.0.2/32,fd00::2/128".toList]]
      = [[("name", "Alpha"), ("allowed-address", "10.0.0.2/32,fd00::2/128")]] := by
  refine ⟨?_, by decide⟩
  intro c id acc rest ws hd hq
  obtain ⟨q, d⟩ := c
  simp only at hd hq
  subst hd hq
  have hmem : "!done".toList ∈ terminalTags := by decide
  have hnt : ¬("!done".toList = "!trap".toList ∨ "!done".toList = "!fatal".toList) := by decide
  simp only [handleSentence, if_pos hmem, if_neg hnt]

theorem C7_row_parsing_witness :
    handleSentence ⟨[(3, [["!re".toList, "=name=Alpha".toList]])], false⟩ ["!done".toList]
      = (⟨[], false⟩, [Outcome.resolved 3 [[("name", "Alpha")]]]) := by
  have h := C7_row_parsing.1 ⟨[(3, [["!re".toList, "=name=Alpha".toList]])], false⟩ 3
    [["!re".toList, "=name=Alpha".toList]] [] [] rfl rfl
  rw [h]
  decide

/-- C10: every request is settled at most once: a terminal reply removes it
from the queue, `destroyAll` rejects each queued request once, empties the
queue and sets `destroyed` (a second invocation rejects nothing), a write
on a destroyed connection is rejected immediately without being enqueued,
and over any trace with distinct write ids no id is ever settled twice. -/
theorem C10_settle_once :
    (∀ (c : Conn) (m : String), c.destroyed = true →
        connStep c (Ev.destroy m) = (c, [])) ∧
    (∀ (c : Conn) (m : String), c.destroyed = false →
        connStep c (Ev.destroy m)
          = (⟨[], true⟩, c.queue.map (fun p => Outcome.rejected p.1 m))) ∧
    (∀ (c : Conn) (id : Nat), c.destroyed = true →
        connStep c (Ev.write id)
          = (c, [Outcome.rejected id "Connection already closed"])) ∧
    (∀ evs : List Ev, (writeIds evs).Nodup → (outIds (connRun connInit evs).2).Nodup) := by
  refine ⟨?_, ?_, ?_, ?_⟩
  · intro c m hd; simp [connStep, hd]
  · intro c m hd; simp [connStep, hd]
  · intro c id hd; simp [connStep, hd]
  · intro evs h
    have hi := connRun_inv_init evs
    exact (h.sublist hi.1).of_append_left

theorem C10_settle_once_witness :
    connStep ⟨[], true⟩ (Ev.destroy "x") = (⟨[], true⟩, []) ∧
    connStep ⟨[(1, [])], false⟩ (Ev.destroy "x")
      = (⟨[], true⟩, [Outcome.rejected 1 "x"]) ∧
    connStep ⟨[], true⟩ (Ev.write 9)
      = (⟨[], true⟩, [Outcome.rejected 9 "Connection already closed"]) ∧
    (outIds (connRun connInit [Ev.write 1, Ev.write 2, Ev.destroy "x"]).2).Nodup :=
  ⟨C10_settle_once.1 ⟨[], true⟩ "x" rfl,
   by rw [C10_settle_once.2.1 ⟨[(1, [])], false⟩ "x" rfl]; decide,
   C10_settle_once.2.2.1 ⟨[], true⟩ 9 rfl,
   C10_settle_once.2.2.2 [Ev.write 1, Ev.write 2, Ev.destroy "x"] (by decide)⟩

/-- C4 counterexample: with `maxRetries = 3` the code makes at most three
`rosConnect` attempts; under an oracle whose attempts 1 to 3 fail and whose
attempt 4 would succeed, `connect` surfaces the wrapped last error and
leaves no pool entry instead of reaching the fourth, successful attempt. -/
theorem C4_retry_counterexample :
    connectFrom 3 "Router" threeFailOutcomes 1 none
      = (Except.error (wrapConnectError "Router" "boom3"), none)
    ∧ threeFailOutcomes 4 = Except.ok 7 := by
  constructor
  · rw [connectFrom_retry (show threeFailOutcomes 1 = Except.error "boom1" from rfl)
        (by omega),
      connectFrom_retry (show threeFailOutcomes 2 = Except.error "boom2" from rfl)
        (by omega),
      connectFrom_exhaust (show threeFailOutcomes 3 = Except.error "boom3" from rfl)
        (by omega)]
  · rfl

/-- C4 amended: `maxRetries` bounds the total number of attempts, with a
fixed delay between attempts: with `maxRetries = 3`, two failed attempts
followed by a successful third still yield a usable pooled connection,
while three failures exhaust the retries, surface the last error wrapped
with router context, and leave no pool entry; an existing pool entry is
returned without any attempt. -/
theorem C4_retry_bound :
    (∀ (outcomes : Nat → Except String Nat) (host e1 e2 : String) (api : Nat),
        outcomes 1 = Except.error e1 → outcomes 2 = Except.error e2 →
        outcomes 3 = Except.ok api →
        connectFrom 3 host outcomes 1 none = (Except.ok api, some api)) ∧
    (∀ (outcomes : Nat → Except String Nat) (host e1 e2 e3 : String),
        outcomes 1 = Except.error e1 → outcomes 2 = Except.error e2 →
        outcomes 3 = Except.error e3 →
        connectFrom 3 host outcomes 1 none
          = (Except.error (wrapConnectError host e3), none)) ∧
    (∀ (maxRetries : Nat) (host : String) (outcomes : Nat → Except String Nat)
        (attempt api : Nat),
        connectFrom maxRetries host outcomes attempt (some api)
          = (Except.ok api, some api)) := by
  refine ⟨?_, ?_, fun mr host oc a api => connectFrom_pool mr host oc a api⟩
  · intro outcomes host e1 e2 api h1 h2 h3
    rw [connectFrom_retry h1 (by omega), connectFrom_retry h2 (by omega),
      connectFrom_ok h3]
  · intro outcomes host e1 e2 e3 h1 h2 h3
    rw [connectFrom_retry h1 (by omega), connectFrom_retry h2 (by omega),
      connectFrom_exhaust h3 (by omega)]

theorem C4_retry_bound_witness :
    connectFrom 3 "R"
        (fun i => if i = 1 then Except.error "a"
          else if i = 2 then Except.error "b" else Except.ok 9) 1 none
      = (Except.ok 9, some 9) :=
  C4_retry_bound.1
    (fun i => if i = 1 then Except.error "a"
      else if i = 2 then Except.error "b" else Except.ok 9)
    "R" "a" "b" 9 rfl rfl rfl

/-- C5 counterexample: two callers that both enter `connect` while the pool
entry is still unset each start their own `rosConnect` transport/login
sequence — after the schedule [0, 1] both are in flight at once and two
sequences have started — and when both resolve, the second completion
overwrites the pool entry of the first while both connections stay live
with their callers. -/
theorem C5_single_flight_counterexample :
    (poolRun 3 (fun _ => true) twoCallers [0, 1]).started = 2 ∧
    (poolRun 3 (fun _ => true) twoCallers [0, 1]).pcs
      = [CallerPC.inflight 1 0, CallerPC.inflight 1 1] ∧
    (poolRun 3 (fun _ => true) twoCallers [0, 1, 0, 1]).pcs
      = [CallerPC.done 0, CallerPC.done 1] ∧
    (poolRun 3 (fun _ => true) twoCallers [0, 1, 0, 1]).pool = some 1 ∧
    (poolRun 3 (fun _ => true) twoCallers [0, 1, 0, 1]).started = 2 := by
  decide

/-- C5 amended: a new connection attempt is never started while a
connection for the router id is Ready (present in the pool) — a caller
entering `connect` then reuses the pooled connection without starting a
transport/login sequence, so sequential callers share one login — but
while an attempt is only in flight the pool is empty and concurrent
callers do each start independent attempts. -/
theorem C5_pool_reuse :
    (∀ (maxRetries : Nat) (ok : Nat → Bool) (st : PoolSt) (i a c : Nat),
        st.pcs[i]? = some (CallerPC.ready a) → st.pool = some c →
        poolStep maxRetries ok st i
          = { st with pcs := st.pcs.set i (CallerPC.done c) }) ∧
    (poolRun 3 (fun _ => true) twoCallers [0, 0, 1]).started = 1 ∧
    (poolRun 3 (fun _ => true) twoCallers [0, 0, 1]).pcs
      = [CallerPC.done 0, CallerPC.done 0] := by
  refine ⟨?_, by decide, by decide⟩
  intro mr ok st i a c hpc hpool
  simp [poolStep, hpc, hpool]

theorem C5_pool_reuse_witness :
    poolStep 3 (fun _ => true) ⟨some 4, 1, [CallerPC.ready 1]⟩ 0
      = ⟨some 4, 1, [CallerPC.done 4]⟩ := by
  rw [C5_pool_reuse.1 3 (fun _ => true) ⟨some 4, 1, [CallerPC.ready 1]⟩ 0 1 4 rfl rfl]
  decide

/-- C8: with a configured fingerprint, the handshake compares the SHA-256
digest of the peer certificate (as lowercase hex) against the configured
value with separators stripped and lowercased; any mismatch yields the
dedicated mismatch error and no login sentence is ever sent, and the
outcome never depends on the credentials. -/
theorem C8_fingerprint_pinning :
    (∀ (d fp u p : String), d ≠ normalizeFp fp →
        rosConnectTls d (some fp) u p
          = { loginSent := false,
              failure := some ("TLS fingerprint mismatch: got " ++ d ++ ", want "
                ++ normalizeFp fp) }) ∧
    (∀ (d fp u p : String), d = normalizeFp fp →
        rosConnectTls d (some fp) u p = { loginSent := true, failure := none }) ∧
    (∀ (d : String) (fp : Option String) (u p u2 p2 : String),
        rosConnectTls d fp u p = rosConnectTls d fp u2 p2) ∧
    normalizeFp "AB:CD:EF 90" = "abcdef90" := by
  refine ⟨?_, ?_, ?_, by decide⟩
  · intro d fp u p h
    simp [rosConnectTls, checkServerIdentity, h]
  · intro d fp u p h
    simp [rosConnectTls, checkServerIdentity, h]
  · intro d fp u p u2 p2
    cases fp <;> simp [rosConnectTls]

theorem C8_fingerprint_pinning_witness :
    rosConnectTls "aa11" (some "BB:22") "admin" "correct-password"
      = { loginSent := false,
          failure := some "TLS fingerprint mismatch: got aa11, want bb22" } := by
  have h := C8_fingerprint_pinning.1 "aa11" "BB:22" "admin" "correct-password" (by decide)
  rw [h]
  decide

/-- C9: `addPeer` stores the private key as the JSON object
`{"privkey": ..., "created_at": ...}` in the comment attribute of the
peer it creates, `_parsePeer` recovers exactly that key from such a
comment, and a peer whose comment is absent or fails to parse as JSON is
reported with a null private key. -/
theorem C9_privkey_comment :
    (∀ pk ts : String, (∀ c ∈ pk.toList, plainChar c) →
        (∀ c ∈ ts.toList, plainChar c) →
        privkeyOfComment (jsonComment pk ts) = some pk) ∧
    (∀ itf nm key v4 v6 pk ts : String,
        (addPeerSentence itf nm key v4 v6 pk ts).getLast?
          = some ("=comment=" ++ jsonComment pk ts)) ∧
    privkeyOfComment "" = none ∧
    privkeyOfComment "manual Winbox note" = none ∧
    (∀ comment : String, comment ≠ "" → parseJsonObj comment = none →
        privkeyOfComment comment = none) := by
  refine ⟨privkey_roundtrip, ?_, by decide, by decide, ?_⟩
  · intro itf nm key v4 v6 pk ts
    rfl
  · intro comment hne hp
    simp [privkeyOfComment, if_neg hne, hp]

theorem C9_privkey_comment_witness :
    (∀ c ∈ ("wg+KEY/b64=".toList), plainChar c) ∧
    privkeyOfComment (jsonComment "wg+KEY/b64=" "2024-05-06T07:08:09.000Z")
      = some "wg+KEY/b64=" :=
  ⟨by decide,
   C9_privkey_comment.1 "wg+KEY/b64=" "2024-05-06T07:08:09.000Z" (by decide) (by decide)⟩

end Ros
